import Mathlib

/-!
Verification development for the `ai-dev-assistant` repository.

The embedding covers the three core modules:
  * `code_editor.py`   (class `CodeEditor`: `apply_edits`, `validate_edit`, `rollback`)
  * `repo_indexer.py`  (class `RepositoryIndexer`: scan, cache save/load, `get_file_content`)
  * `context_selector.py` (class `SmartContextSelector`: scoring and budgeted selection)

Modelling conventions:
  * The repository file system is an association list from path strings (repo-relative,
    POSIX separators) to file contents.  `apply_edits` addresses files by
    `repo_path / edit.file_path`; since the repository root is a fixed constant we key
    the map by the `file_path` strings themselves (backup files live under the
    repo-relative `.ai-dev-assistant-backups` directory, consistently in the same map).
  * Python exceptions are modelled with `Except String`: a raised exception carries its
    message.  I/O failure points (backup copy, file read, file write) are driven by an
    explicit failure model (`FailModel`), `none` meaning the operation succeeds.
  * Python `str` operations (`in`, `count`, `replace(old, new, 1)`, `split`, `lower`,
    `startswith`) are re-implemented on `List Char` with the exact CPython semantics
    (including the empty-substring conventions).  `lower` is ASCII (the repository's
    fixed tokens are ASCII; Unicode case folding is out of scope).
  * Scores in `context_selector.py` are Python floats, but every weight is a small
    integer and only additions and order comparisons occur, which are exact in binary
    floating point and stay integral; the model uses `Int`.
-/
/-! ### Python string primitives (CPython semantics, on `List Char`) -/
/-- First occurrence split: `listSplitFirst sub s = some (p, q)` iff `s = p ++ sub ++ q`
with `p` shortest.  Mirrors how CPython locates a substring for `in`, `find`,
`replace(..., 1)` and `split(sep)` (an empty `sub` matches at the front). -/
def listSplitFirst (sub : List Char) : List Char → Option (List Char × List Char)
  | [] => if sub.isPrefixOf [] then some ([], []) else none
  | c :: t =>
    if sub.isPrefixOf (c :: t) then some ([], (c :: t).drop sub.length)
    else (listSplitFirst sub t).map (fun pq => (c :: pq.1, pq.2))

/-- Python `sub in s` (substring containment). -/
def pyContains (s sub : String) : Bool := (listSplitFirst sub.data s.data).isSome

/-- Python `s.replace(old, new, 1)`: replace exactly the first occurrence. -/
def pyReplaceFirst (s old new : String) : String :=
  match listSplitFirst old.data s.data with
  | some pq => ⟨pq.1 ++ new.data ++ pq.2⟩
  | none => s

/-- Scanner for non-overlapping occurrence counting: at `skip = 0` a match is
counted and the remaining `sub.length - 1` matched characters are skipped (the
character heading the match is consumed by the step itself), which is exactly
CPython's advance-past-the-match behaviour. -/
def countOccAux (sub : List Char) : List Char → Nat → Nat
  | [], _ => 0
  | c :: t, 0 =>
    if sub.isPrefixOf (c :: t) then 1 + countOccAux sub t (sub.length - 1)
    else countOccAux sub t 0
  | _ :: t, k + 1 => countOccAux sub t k

/-- Python non-overlapping `s.count(sub)`; `s.count('')` is `len(s) + 1`. -/
def listCountOcc (sub : List Char) (s : List Char) : Nat :=
  if sub = [] then s.length + 1 else countOccAux sub s 0

/-- Python `s.count(sub)`. -/
def pyCount (s sub : String) : Nat := listCountOcc sub.data s.data

/-- Python `s.lower()` (ASCII). -/
def pyLower (s : String) : String := ⟨s.data.map Char.toLower⟩

/-- Python `s.startswith(p)`. -/
def pyStartsWith (s p : String) : Bool := p.data.isPrefixOf s.data

/-- Scanner for `split`: accumulate the current part (reversed); at a separator
match emit it and skip the matched separator characters. -/
def splitAllAux (sep : List Char) : List Char → List Char → Nat → List (List Char)
  | [], acc, _ => [acc.reverse]
  | c :: t, acc, 0 =>
    if sep.isPrefixOf (c :: t) then acc.reverse :: splitAllAux sep t [] (sep.length - 1)
    else splitAllAux sep t (c :: acc) 0
  | _ :: t, acc, k + 1 => splitAllAux sep t acc k

/-- Python `s.split(sep)` for a non-empty separator (an empty separator raises in
Python and never occurs in this code base; we return `[s]` in that dead branch). -/
def listSplitAll (sep : List Char) (s : List Char) : List (List Char) :=
  if sep = [] then [s] else splitAllAux sep s [] 0

def pySplit (s sep : String) : List String :=
  (listSplitAll sep.data s.data).map (fun l => ⟨l⟩)

/-- Python `sep.join(xs)`. -/
def pyJoin (sep : String) (xs : List String) : String := String.intercalate sep xs

/-- `list.insert(n, a)` for `0 ≤ n ≤ len` (the only guarded use in the code). -/
def listInsertAt {α : Type} (l : List α) (n : Nat) (a : α) : List α :=
  l.take n ++ a :: l.drop n

/-! ### Path helpers (POSIX `pathlib` semantics used by the code) -/
/-- Path components as `pathlib` keeps them: split on the separator, dropping empty
components and single dots (`PurePosixPath` normalisation); `..` components are kept. -/
def pathComps (p : String) : List String :=
  (pySplit p "/").filter (fun c => c ≠ "" && c ≠ ".")

/-- `str(PurePosixPath(p))` for the paths this code builds (the double-slash-root
quirk of POSIX paths is not modelled; no call site produces it). -/
def pathStr (p : String) : String :=
  let abs := pyStartsWith p "/"
  let cs := pathComps p
  if cs.isEmpty then (if abs then "/" else ".")
  else (if abs then "/" else "") ++ String.intercalate "/" cs

/-- `PurePosixPath(p).name`: the final component (`''` when there is none). -/
def pathName (p : String) : String := (pathComps p).getLastD ""

/-- `str(PurePosixPath(p).parent)`. -/
def pathParentStr (p : String) : String :=
  let abs := pyStartsWith p "/"
  let cs := pathComps p
  if cs.length ≤ 1 then (if abs then "/" else ".")
  else (if abs then "/" else "") ++ String.intercalate "/" cs.dropLast

/-- `Path(p).resolve()` for an absolute `p`, lexically (no symlinks): normalise and
fold `..` components (at the root `..` is dropped, as POSIX resolution does). -/
def resolveAbs (p : String) : String :=
  let cs := (pathComps p).foldl
    (fun stack c => if c = ".." then stack.dropLast else stack ++ [c]) []
  if cs.isEmpty then "/" else "/" ++ String.intercalate "/" cs

/-! ### `code_editor.py`: data model -/
/-- `Edit` dataclass of `code_editor.py`.  `operation` is the stringly-typed field of
the source (`'replace' | 'insert' | 'delete' | 'full_replace'`, anything else being
possible data). -/
structure Edit where
  file_path : String
  operation : String
  old_content : Option String := none
  new_content : Option String := none
  line_start : Option Int := none
  line_end : Option Int := none
  success : Bool := false
  error : Option String := none
deriving DecidableEq

/-- `EditResult` dataclass.  The `diff` field of the source is a presentation-only
summary string (built by `generate_diff_summary` from `difflib` output and snippet
truncation) that no claim concerns; it is not modelled. -/
structure EditResult where
  success : Bool
  edits_applied : List Edit
  edits_failed : List Edit
  backup_path : Option String := none
deriving DecidableEq

/-- The repository directory: repo-relative path strings mapped to file contents. -/
abbrev FS : Type := List (String × String)

/-- Association-list lookup (first binding wins, so consing is an update). -/
def alookup {β : Type} : List (String × β) → String → Option β
  | [], _ => none
  | (k, v) :: rest, q => if k = q then some v else alookup rest q

/-- Which I/O operations fail, and with which exception message (`str(e)` in the
source's handlers): backup copy (`shutil.copy2`), file open-for-read, and
file open-for-write, per target path.  `none` means the operation succeeds. -/
structure FailModel where
  backupFail : String → Option String
  readFail : String → Option String
  writeFail : String → Option String

/-- The all-operations-succeed I/O model. -/
def noFail : FailModel := ⟨fun _ => none, fun _ => none, fun _ => none⟩

/-- `_create_backup`: backup file path `backup_dir / (file_path.name + '.backup.' + ts)`
where `ts` is the `datetime.now().strftime('%Y%m%d_%H%M%S')` timestamp (a parameter
of the model). -/
def backupPathOf (p ts : String) : String :=
  ".ai-dev-assistant-backups/" ++ pathName p ++ ".backup." ++ ts

/-- Mark an edit failed with an error text: the state `edit.error = msg;
edit.success = False` written both by the per-operation failure branches and by the
exception handler of `apply_edits` (lines 159-163). -/
def markFailed (msg : String) (e : Edit) : Edit :=
  { e with success := false, error := some msg }

/-- Python `'\n'.join((s).split('\n'))` round-trips, and `''.split('\n') == ['']`;
`pySplit`/`pyJoin` share those semantics. -/
def pySplitLines (s : String) : List String := pySplit s "\n"

/-- Python `str(x)` for the `Optional[int]` line fields as an f-string renders them
(`None` prints as `"None"`). -/
def showPyOptInt : Option Int → String
  | none => "None"
  | some n => toString n

/-- One iteration of the sequential edit loop of `apply_edits` (lines 107-147) on the
progressively mutated content.  The mutated content is `Option String` because a
`full_replace` with `new_content = None` makes it Python `None`; later operations on
`None` raise `TypeError`/`AttributeError`, modelled as `.raise`. -/
inductive StepOut where
  | ok (e : Edit) (mc : Option String)
  | raise (msg : String)

def applyOne (e : Edit) (mc : Option String) : StepOut :=
  if e.operation = "full_replace" then
    .ok { e with success := true } e.new_content
  else if e.operation = "replace" then
    match e.old_content, mc with
    | none, _ => .raise "TypeError: a NoneType operand for in"
    | some _, none => .raise "TypeError: argument of type NoneType is not iterable"
    | some old, some cur =>
      if pyContains cur old then
        match e.new_content with
        | none => .raise "TypeError: replace argument 2 must be str"
        | some nw => .ok { e with success := true } (some (pyReplaceFirst cur old nw))
      else .ok { e with success := false, error := some "Old content not found in file" } mc
  else if e.operation = "insert" then
    match mc with
    | none => .raise "AttributeError: NoneType object has no attribute split"
    | some cur =>
      match e.line_start with
      | none => .raise "TypeError: comparison of int and NoneType"
      | some n =>
        let lines := pySplitLines cur
        if 0 ≤ n ∧ n ≤ (lines.length : Int) then
          match e.new_content with
          | none => .raise "TypeError: sequence item 0: expected str instance"
          | some nc => .ok { e with success := true } (some (pyJoin "\n" (listInsertAt lines n.toNat nc)))
        else .ok (markFailed ("Invalid line number: " ++ showPyOptInt e.line_start) e) mc
  else if e.operation = "delete" then
    match mc with
    | none => .raise "AttributeError: NoneType object has no attribute split"
    | some cur =>
      match e.line_start with
      | none => .raise "TypeError: comparison of int and NoneType"
      | some a =>
        let lines := pySplitLines cur
        -- chained comparison `0 <= line_start < len(lines)` is evaluated first and
        -- short-circuits the `line_end <= len(lines)` conjunct
        if 0 ≤ a ∧ a < (lines.length : Int) then
          match e.line_end with
          | none => .raise "TypeError: comparison of int and NoneType"
          | some b =>
            if b ≤ (lines.length : Int) then
              -- `del lines[a:b]`: Python slice deletion (negative `b` counts from the
              -- end, an empty or reversed range deletes nothing)
              let bNorm : Int := if b < 0 then max 0 (b + lines.length) else b
              let kept := lines.take a.toNat ++ lines.drop (max a.toNat bNorm.toNat)
              .ok { e with success := true } (some (pyJoin "\n" kept))
            else .ok (markFailed ("Invalid line range: " ++ showPyOptInt e.line_start ++ "-" ++ showPyOptInt e.line_end) e) mc
        else .ok (markFailed ("Invalid line range: " ++ showPyOptInt e.line_start ++ "-" ++ showPyOptInt e.line_end) e) mc
  else
    -- unknown operation string: no branch of the if/elif chain runs; the edit keeps
    -- its incoming success/error fields and is routed by its success flag
    .ok e mc

/-- Outcome of the per-file edit loop.  In the `.raised` case `applied`/`failed` are
the per-group fragments of the outer `applied`/`failed` lists appended before the
exception; the handler then overwrites their `success`/`error` in place. -/
inductive LoopOut where
  | done (updated applied failed : List Edit) (mc : Option String)
  | raised (msg : String) (applied failed : List Edit)

def editLoop : List Edit → Option String → LoopOut
  | [], mc => .done [] [] [] mc
  | e :: rest, mc =>
    match applyOne e mc with
    | .raise msg => .raised msg [] []
    | .ok e1 mc1 =>
      match editLoop rest mc1 with
      | .done up ap fl mcf =>
        .done (e1 :: up) (if e1.success then e1 :: ap else ap)
          (if e1.success then fl else e1 :: fl) mcf
      | .raised msg ap fl =>
        .raised msg (if e1.success then e1 :: ap else ap)
          (if e1.success then fl else e1 :: fl)

/-- The `try:` body of the per-file block of `apply_edits` (lines 96-163) together
with its `except` handler: read current content (empty string when the file does not
exist), run the edit loop, and write the result back when at least one edit in the
group succeeded.  A caught exception marks every edit of the group as failed with the
exception text; edits already recorded in `applied`/`failed` are the same (mutated)
objects, so their values are marked too.  Returns
`(applied fragment, failed fragment, backup path, file system after)`. -/
def processBody (fm : FailModel) (fs : FS) (p : String) (g : List Edit)
    (bp : Option String) : List Edit × List Edit × Option String × FS :=
  let readRes : Except String String :=
    match alookup fs p with
    | some c =>
      match fm.readFail p with
      | some m => .error m
      | none => .ok c
    | none => .ok ""
  match readRes with
  | .error msg => ([], g.map (markFailed msg), bp, fs)
  | .ok current =>
    match editLoop g (some current) with
    | .raised msg ap fl =>
      -- the handler mutates every edit of the group; since the loop only ever set
      -- success/error, marking the original group values is the resulting state
      (ap.map (markFailed msg), fl.map (markFailed msg) ++ g.map (markFailed msg), bp, fs)
    | .done up ap fl mcf =>
      if up.any (fun e => e.success) then
        match mcf with
        | none =>
          let msg := "TypeError: write argument must be str, not None"
          (ap.map (markFailed msg), fl.map (markFailed msg) ++ g.map (markFailed msg), bp, fs)
        | some txt =>
          match fm.writeFail p with
          | some msg =>
            (ap.map (markFailed msg), fl.map (markFailed msg) ++ g.map (markFailed msg), bp, fs)
          | none => (ap, fl, bp, (p, txt) :: fs)
      else (ap, fl, bp, fs)

/-- One iteration of the per-file loop of `apply_edits` (lines 89-163).  Backup
creation (lines 92-94) happens OUTSIDE the `try:` block, so its failure is an
uncaught exception (`.error`). -/
def processOneFile (cb : Bool) (fm : FailModel) (ts : String) (fs : FS) (p : String)
    (g : List Edit) : Except String (List Edit × List Edit × Option String × FS) :=
  match (if cb then alookup fs p else none) with
  | some content =>
    match fm.backupFail p with
    | some msg => .error msg
    | none =>
      let bp := backupPathOf p ts
      .ok (processBody fm ((bp, content) :: fs) p g (some bp))
  | none => .ok (processBody fm fs p g none)

/-- Grouping of `apply_edits` lines 82-86: a Python dict keyed by `file_path`
(insertion order of first occurrence; submission order inside each group). -/
def addToGroups (acc : List (String × List Edit)) (e : Edit) : List (String × List Edit) :=
  match acc with
  | [] => [(e.file_path, [e])]
  | (p, g) :: rest =>
    if p = e.file_path then (p, g ++ [e]) :: rest else (p, g) :: addToGroups rest e

def groupByFile (edits : List Edit) : List (String × List Edit) :=
  edits.foldl addToGroups []

/-- The per-file loop, threading the file system and accumulating the `applied`,
`failed` and `backup_path` variables (`backup_path` keeps the last value assigned). -/
def runGroups (cb : Bool) (fm : FailModel) (ts : String) :
    List (String × List Edit) → FS →
    Except String (List Edit × List Edit × Option String × FS)
  | [], fs => .ok ([], [], none, fs)
  | (p, g) :: rest, fs =>
    match processOneFile cb fm ts fs p g with
    | .error m => .error m
    | .ok (ap, fl, bp, fs1) =>
      match runGroups cb fm ts rest fs1 with
      | .error m => .error m
      | .ok (aps, fls, bps, fs2) =>
        .ok (ap ++ aps, fl ++ fls, (match bps with | some b => some b | none => bp), fs2)

/-- `CodeEditor.apply_edits`.  `cb` is the `create_backups` constructor flag, `fm`
the I/O failure model, `ts` the backup timestamp.  Returns `.error` when an uncaught
exception propagates out of the method. -/
def applyEdits (cb : Bool) (fm : FailModel) (ts : String) (edits : List Edit)
    (fs : FS) : Except String (EditResult × FS) :=
  match runGroups cb fm ts (groupByFile edits) fs with
  | .error m => .error m
  | .ok (ap, fl, bp, fs1) =>
    .ok ({ success := fl.isEmpty, edits_applied := ap, edits_failed := fl,
           backup_path := bp }, fs1)

/-- `CodeEditor.validate_edit`.  `repoPath` is `str(self.repo_path)`, assumed a
normalised absolute path (which every caller passes).  The `except` of the path check
only fires on paths the `pathlib` constructor rejects (NUL bytes); not modelled. -/
def validateEdit (repoPath : String) (e : Edit) : Bool × Option String :=
  if pyStartsWith e.file_path "/" then (false, some "File path must be relative")
  else
    let full := resolveAbs (repoPath ++ "/" ++ e.file_path)
    if ¬ pyStartsWith full repoPath then (false, some "File path outside repository")
    else if ¬ (["replace", "insert", "delete", "full_replace"].contains e.operation) then
      (false, some ("Invalid operation: " ++ e.operation))
    else if e.operation = "replace" ∧
        (e.old_content = none ∨ e.old_content = some "" ∨
         e.new_content = none ∨ e.new_content = some "") then
      (false, some "Replace operation requires old_content and new_content")
    else if e.operation = "insert" ∧ (e.new_content = none ∨ e.line_start = none) then
      (false, some "Insert operation requires new_content and line_start")
    else if e.operation = "delete" ∧ (e.line_start = none ∨ e.line_end = none) then
      (false, some "Delete operation requires line_start and line_end")
    else if e.operation = "full_replace" ∧ e.new_content = none then
      (false, some "Full replace requires new_content")
    else (true, none)

/-- The property the specification asks of the path check: the resolved path lies
inside the repository root (stated from the spec's words, to exhibit the divergence
from the `startswith` check the code performs). -/
def insideRoot (root resolved : String) : Bool :=
  resolved = root || pyStartsWith resolved (root ++ "/")

/-- `CodeEditor.rollback`.  The restore target is
`backup.parent / backup.name.split('.backup.')[0]` — i.e. a path inside the backup
directory, not the original repository location.  A missing backup or a failing
`shutil.copy2` returns `False` (the `except` handler). -/
def rollback (fm : FailModel) (fs : FS) (backupPath : String) : Bool × FS :=
  match alookup fs backupPath with
  | none => (false, fs)
  | some content =>
    let nm := pathName backupPath
    let origName : String :=
      match listSplitFirst (".backup.").data nm.data with
      | some pq => ⟨pq.1⟩
      | none => nm
    let parent := pathParentStr backupPath
    let origPath := if parent = "." then origName else parent ++ "/" ++ origName
    match fm.writeFail origPath with
    | some _ => (false, fs)
    | none => (true, (origPath, content) :: fs)

/-! ### `repo_indexer.py`: data model -/
/-- `FileInfo` dataclass.  `size`/`lines` are `Nat`: every reachable value comes from
`stat().st_size` and a newline count, both non-negative. -/
structure FileInfo where
  path : String
  relative_path : String
  size : Nat
  extension : String
  is_code : Bool
  content : Option String := none
  content_hash : Option String := none
  lines : Nat := 0
deriving DecidableEq

/-- The JSON documents `json.dump`/`json.load` exchange through the cache file.
Only the value shapes this program writes are needed (no floats). -/
inductive Json where
  | null : Json
  | jbool (b : Bool) : Json
  | jint (n : Int) : Json
  | jstr (s : String) : Json
  | jarr (xs : List Json) : Json
  | jobj (kvs : List (String × Json)) : Json

/-- `asdict(FileInfo)` as serialised into the `files` map of the cache document. -/
def encodeFileInfo (f : FileInfo) : Json :=
  .jobj [("path", .jstr f.path), ("relative_path", .jstr f.relative_path),
         ("size", .jint f.size), ("extension", .jstr f.extension),
         ("is_code", .jbool f.is_code),
         ("content", match f.content with | none => .null | some s => .jstr s),
         ("content_hash", match f.content_hash with | none => .null | some s => .jstr s),
         ("lines", .jint f.lines)]

def asStr : Option Json → Option String
  | some (.jstr s) => some s
  | _ => none

def asNat : Option Json → Option Nat
  | some (.jint n) => if n < 0 then none else some n.toNat
  | _ => none

def asBool : Option Json → Option Bool
  | some (.jbool b) => some b
  | _ => none

def asOptStr : Option Json → Option (Option String)
  | some .null => some none
  | some (.jstr s) => some (some s)
  | _ => none

/-- `FileInfo(**data)` on a decoded cache entry.  CPython would accept entries whose
keys match but whose value types differ (dataclasses do not check types); such
documents are outside the range of `_save_cache` and decode to `none` here. -/
def decodeFileInfo : Json → Option FileInfo
  | .jobj kvs =>
    match asStr (alookup kvs "path"), asStr (alookup kvs "relative_path"),
        asNat (alookup kvs "size"), asStr (alookup kvs "extension"),
        asBool (alookup kvs "is_code"), asOptStr (alookup kvs "content"),
        asOptStr (alookup kvs "content_hash"), asNat (alookup kvs "lines") with
    | some p, some rp, some sz, some ext, some ic, some c, some ch, some ln =>
      some ⟨p, rp, sz, ext, ic, c, ch, ln⟩
    | _, _, _, _, _, _, _, _ => none
  | _ => none

/-- The in-memory indexer fields the cache persists.  `dependencies` is kept as the
raw JSON value: `_load_cache` assigns whatever `json.load` produced without parsing,
and `_parse_dependencies` only ever builds JSON-representable dict/list shapes. -/
structure IndexerState where
  files : List (String × FileInfo)
  project_type : Option String
  dependencies : Json

/-- `RepositoryIndexer._save_cache`: the document written to
`.ai-dev-assistant-cache.json`. -/
def saveCache (st : IndexerState) : Json :=
  .jobj [("version", .jstr "1.0"),
         ("project_type", match st.project_type with | none => .null | some s => .jstr s),
         ("dependencies", st.dependencies),
         ("files", .jobj (st.files.map (fun kv => (kv.1, encodeFileInfo kv.2))))]

/-- The `for path, data in cache_data.get('files', {}).items()` loop: every entry
must rebuild (`FileInfo(**data)` raising on a malformed entry fails the whole
load). -/
def decodeFilesList : List (String × Json) → Option (List (String × FileInfo))
  | [] => some []
  | kv :: rest =>
    match decodeFileInfo kv.2, decodeFilesList rest with
    | some fi, some tl => some ((kv.1, fi) :: tl)
    | _, _ => none

def decodeFiles : Json → Option (List (String × FileInfo))
  | .jobj kvs => decodeFilesList kvs
  | _ => none

/-- `RepositoryIndexer._load_cache` applied to a parsed cache document: version gate
(`!= '1.0'` means the cache is not trusted), then rebuild `files`, `project_type` and
`dependencies`.  Any exception inside (e.g. `FileInfo(**data)` on malformed entries)
makes the loader return `False`, here `none`. -/
def loadCache (j : Json) : Option IndexerState :=
  match j with
  | .jobj kvs =>
    match alookup kvs "version" with
    | some (.jstr v) =>
      if v = "1.0" then
        match decodeFiles ((alookup kvs "files").getD (.jobj [])) with
        | some fls =>
          match asOptStr (some ((alookup kvs "project_type").getD .null)) with
          | some pt => some ⟨fls, pt, (alookup kvs "dependencies").getD (.jobj [])⟩
          | none => none
        | none => none
      else none
    | _ => none
  | _ => none

/-- `RepositoryIndexer.index`: when `force_refresh` is false and a loadable cache
with matching version exists, return it without walking the filesystem; otherwise the
result of the walk (`scanResult`, an input of the model) is used.  The returned flag
records whether the filesystem walk ran. -/
def indexRun (cache : Option Json) (forceRefresh : Bool) (scanResult : IndexerState) :
    IndexerState × Bool :=
  if forceRefresh = false then
    match cache with
    | some j =>
      match loadCache j with
      | some st => (st, false)
      | none => (scanResult, true)
    | none => (scanResult, true)
  else (scanResult, true)

/-- `RepositoryIndexer.get_file_content`: returns cached content, lazily loading and
memoising it from disk for catalogued paths.  `disk` maps a repo-relative path to its
readable content (`none`: missing or unreadable, the `except` path).  The third
component records whether a disk read was attempted. -/
def getFileContent (files : List (String × FileInfo)) (disk : String → Option String)
    (rel : String) : Option String × List (String × FileInfo) × Bool :=
  match alookup files rel with
  | none => (none, files, false)
  | some fi =>
    match fi.content with
    | some c => (some c, files, false)
    | none =>
      match disk rel with
      | some c =>
        (some c, files.map (fun kv => if kv.1 = rel then (kv.1, { fi with content := some c }) else kv), true)
      | none => (none, files, true)

/-! ### `repo_indexer.py`: the filesystem scan (`index` walk, lines 119-133) -/
def IGNORE_DIRS : List String :=
  [".git", ".svn", ".hg", "node_modules", "__pycache__", ".pytest_cache",
   "venv", "env", ".venv", ".env", "dist", "build", ".next", ".nuxt",
   "coverage", ".coverage", "htmlcov", ".idea", ".vscode", ".DS_Store",
   "tmp", "temp", "cache"]

def IGNORE_FILES : List String :=
  [".DS_Store", "package-lock.json", "yarn.lock", "poetry.lock",
   ".env", ".env.local", ".env.production"]

def CODE_EXTENSIONS : List String :=
  [".js", ".jsx", ".ts", ".tsx", ".py", ".rb", ".php", ".java",
   ".html", ".css", ".scss", ".sass", ".less", ".json", ".xml", ".yaml", ".yml",
   ".md", ".txt", ".vue", ".svelte", ".go", ".rs", ".c", ".cpp", ".h",
   ".sh", ".bash"]

def BINARY_EXTENSIONS : List String :=
  [".jpg", ".jpeg", ".png", ".gif", ".ico", ".svg", ".pdf", ".zip", ".tar",
   ".gz", ".rar", ".exe", ".dll", ".so", ".dylib", ".mp3", ".mp4", ".avi",
   ".mov", ".woff", ".woff2", ".ttf", ".eot"]

/-- `RepositoryIndexer._should_ignore_dir`. -/
def shouldIgnoreDir (d : String) : Bool :=
  IGNORE_DIRS.contains d || pyStartsWith d "."

/-- `PurePosixPath(name).suffix`: the final extension with its dot; empty when the
only dot is leading (`.gitignore`) or trailing (`name.`). -/
def fileSuffix (nm : String) : String :=
  let cs := nm.data
  match (cs.reverse.findIdx? (fun c => c = '.')).map (fun j => cs.length - 1 - j) with
  | some i => if 0 < i ∧ i < cs.length - 1 then ⟨cs.drop i⟩ else ""
  | none => ""

/-- `RepositoryIndexer._should_ignore_file`. -/
def shouldIgnoreFile (nm : String) : Bool :=
  IGNORE_FILES.contains nm ||
  (pyStartsWith nm "." && !([".gitignore", ".dockerignore"].contains nm)) ||
  BINARY_EXTENSIONS.contains (pyLower (fileSuffix nm))

/-- What the walk sees for one directory entry that is a file: its `stat` size, its
readable content (`none` when `open`/decode fails, the inner `except: pass`), and
whether `stat` itself succeeds (the outer handler skips the file otherwise). -/
structure FsFileData where
  size : Nat
  content : Option String := none
  statOk : Bool := true

mutual
inductive FsTree where
  | node (files : List (String × FsFileData)) (dirs : FsForest) : FsTree
inductive FsForest where
  | fnil : FsForest
  | fcons (name : String) (tree : FsTree) (rest : FsForest) : FsForest
end

/-- Relative-path join as `filepath.relative_to(repo_path)` renders it. -/
def joinRel (pfx nm : String) : String := if pfx = "" then nm else pfx ++ "/" ++ nm

/-- `RepositoryIndexer._create_file_info`: metadata plus eagerly loaded content (with
md5 hash and line count) for code files under 500 kB.  `md5hex` is the hash function,
a parameter of the model.  `none` when `stat` fails (the file is skipped). -/
def mkFileInfo (root : String) (md5hex : String → String) (relPath nm : String)
    (d : FsFileData) : Option FileInfo :=
  if d.statOk then
    let ext := pyLower (fileSuffix nm)
    let isCode := CODE_EXTENSIONS.contains ext
    let loaded : Option String := if isCode ∧ d.size < 500000 then d.content else none
    some { path := root ++ "/" ++ relPath, relative_path := relPath, size := d.size,
           extension := ext, is_code := isCode, content := loaded,
           content_hash := loaded.map md5hex,
           lines := match loaded with | some c => pyCount c "\n" + 1 | none => 0 }
  else none

mutual
/-- The `os.walk` scan: the current directory's files (in listing order, ignored
names skipped), then the kept subdirectories depth-first (`dirs[:]` pruning before
descent). -/
def scanTree (root : String) (md5hex : String → String) (pfx : String) :
    FsTree → List (String × FileInfo)
  | .node fls ds =>
    (fls.filterMap (fun fd =>
      if shouldIgnoreFile fd.1 then none
      else (mkFileInfo root md5hex (joinRel pfx fd.1) fd.1 fd.2).map
        (fun fi => (joinRel pfx fd.1, fi)))) ++ scanForest root md5hex pfx ds

def scanForest (root : String) (md5hex : String → String) (pfx : String) :
    FsForest → List (String × FileInfo)
  | .fnil => []
  | .fcons nm t rest =>
    (if shouldIgnoreDir nm then [] else scanTree root md5hex (joinRel pfx nm) t) ++
    scanForest root md5hex pfx rest
end

/-! ### `context_selector.py`: keyword extraction and task-type detection -/
/-- `\w` of the keyword regex (ASCII; the tokens this program matches are ASCII). -/
def isWordChar (c : Char) : Bool := c.isAlphanum || c = '_'

/-- `[a-zA-Z_]`, the required first character of a keyword token. -/
def isTokHead (c : Char) : Bool := c.isAlpha || c = '_'

/-- `[\w-]`, the continuation class of a keyword token. -/
def isRunChar (c : Char) : Bool := isWordChar c || c = '-'

def dropTrailingDashes (l : List Char) : List Char :=
  (l.reverse.dropWhile (fun c => c = '-')).reverse

/-- Scanner for `re.findall(r'\b[a-zA-Z_][\w-]*\b', s)`: scan left to right; at a
word boundary starting with `[a-zA-Z_]`, take the maximal `[\w-]*` run, backtracking
the greedy star past trailing hyphens until the closing `\b` holds; continue after
the match (the `skip` counter consumes the matched tail). -/
def findTokensAux : List Char → Option Char → Nat → List (List Char)
  | [], _, _ => []
  | c :: rest, prev, 0 =>
    if isTokHead c && (match prev with | none => true | some p => !isWordChar p) then
      let run := rest.takeWhile isRunChar
      let tokTail := dropTrailingDashes run
      (c :: tokTail) ::
        findTokensAux rest (some ((c :: tokTail).getLast (by simp))) tokTail.length
    else findTokensAux rest (some c) 0
  | _ :: rest, prev, k + 1 => findTokensAux rest prev k

def findTokens (s : List Char) : List (List Char) := findTokensAux s none 0

def STOP_WORDS : List String :=
  ["the", "a", "an", "and", "or", "but", "in", "on", "at", "to", "for",
   "of", "with", "by", "from", "as", "is", "was", "are", "were", "been",
   "be", "have", "has", "had", "do", "does", "did", "will", "would",
   "should", "could", "can", "may", "might", "must", "this", "that",
   "these", "those", "i", "you", "he", "she", "it", "we", "they",
   "create", "add", "update", "delete", "make", "build", "implement"]

/-- `SmartContextSelector._extract_keywords`: tokenize the lowercased text, keep
words longer than two characters that are not stop words, first occurrence order. -/
def extractKeywords (text : String) : List String :=
  let words := (findTokens (pyLower text).data).map (fun cs => (⟨cs⟩ : String))
  words.foldl (fun acc w =>
    if w.length > 2 && !STOP_WORDS.contains w && !acc.contains w then acc ++ [w]
    else acc) []

/-- `SmartContextSelector._detect_task_type`. -/
def detectTaskType (description : String) : String :=
  let d := pyLower description
  if ["edit", "modify", "update", "change", "fix", "refactor"].any (fun kw => pyContains d kw) then "edit"
  else if ["create", "add", "build", "implement", "new"].any (fun kw => pyContains d kw) then "create"
  else if pyContains d "bug" || pyContains d "error" || pyContains d "fix" then "bugfix"
  else if ["style", "css", "design", "ui", "layout"].any (fun kw => pyContains d kw) then "style"
  else "general"

/-! ### `context_selector.py`: scoring -/
/-- The `WEIGHTS` class constant (floats in the source; all integral and combined
only by addition, hence exact and integral).  `W_filename_keyword` is the source's
`filename_partial` weight. -/
def W_filename_exact : Int := 10

def W_filename_keyword : Int := 5

def W_content_high : Int := 8

def W_content_medium : Int := 4

def W_content_low : Int := 1

def W_extension_match : Int := 3

def W_path_similarity : Int := 2

def W_dependency : Int := 6

def W_small_file_bonus : Int := 1

/-- A single-quote character, used inside generated reason strings. -/
def quoteCh : String := ⟨[Char.ofNat 39]⟩

/-- Factor 1 — explicit target mention: `target.lower() in filename`, one bonus for
the first matching target. -/
def targetScore (filename : String) (targets : List String) : Int × List String :=
  if targets.any (fun t => pyContains filename (pyLower t)) then
    (W_filename_exact, ["mentioned in task"])
  else (0, [])

/-- Factor 2 — keyword in the filename, one bonus for the first matching keyword. -/
def filenameScore (filename : String) (kws : List String) : Int × List String :=
  match kws.find? (fun k => pyContains filename k) with
  | some k => (W_filename_keyword, ["filename contains " ++ quoteCh ++ k ++ quoteCh])
  | none => (0, [])

/-- `keyword_density`: total occurrence count of the keywords in the lowercased
content (only positive counts are accumulated, which equals the plain sum). -/
def keywordDensity (contentLower : String) (kws : List String) : Nat :=
  kws.foldl (fun acc k => let c := pyCount contentLower k; if 0 < c then acc + c else acc) 0

/-- Factor 3 — bucketed content keyword density (skipped when content is empty,
Python truthiness of `if content:`). -/
def contentScore (content : String) (kws : List String) : Int × List String :=
  if content = "" then (0, [])
  else
    let d := keywordDensity (pyLower content) kws
    if 10 < d then (W_content_high, ["high keyword density"])
    else if 3 < d then (W_content_medium, ["contains keywords"])
    else if 0 < d then (W_content_low, [])
    else (0, [])

/-- `SmartContextSelector._get_relevant_extensions` (set semantics: only membership
is ever asked of the result). -/
def relevantExtensions (taskType : String) (kws : List String) : List String :=
  let e1 := if ["html", "page", "template"].any (fun kw => kws.contains kw) then
    [".html", ".css", ".js"] else []
  let e2 := if ["style", "css", "design"].any (fun kw => kws.contains kw) then
    [".css", ".scss", ".sass", ".less"] else []
  let e3 := if ["script", "javascript", "function"].any (fun kw => kws.contains kw) then
    [".js", ".jsx", ".ts", ".tsx"] else []
  let e4 := if ["component", "react", "vue"].any (fun kw => kws.contains kw) then
    [".jsx", ".tsx", ".vue"] else []
  let e5 := if taskType = "style" then [".css", ".scss", ".sass", ".html"]
    else if taskType = "create" then [".html", ".css", ".js", ".jsx", ".ts", ".tsx"]
    else []
  let exts := e1 ++ e2 ++ e3 ++ e4 ++ e5
  if exts.isEmpty then [".html", ".css", ".js"] else exts

/-- Factor 4 — extension relevant to the task. -/
def extensionScore (ext taskType : String) (kws : List String) : Int × List String :=
  if (relevantExtensions taskType kws).contains ext then
    (W_extension_match, ["relevant file type"])
  else (0, [])

/-- Factor 5 — same parent directory as an explicit target, only for edit tasks
(`target` is compared with its original case, `filename` lowercased, as the source
does). -/
def pathSimScore (filename taskType : String) (targets : List String) : Int × List String :=
  if taskType = "edit" && !targets.isEmpty then
    if targets.any (fun t => pathParentStr t = pathParentStr filename) then
      (W_path_similarity, ["same directory"])
    else (0, [])
  else (0, [])

/-- Factor 6 — small file bonus (`size < 10_000`), no reason string. -/
def sizeScore (size : Nat) : Int × List String :=
  if size < 10000 then (W_small_file_bonus, []) else (0, [])

def IMPORTANT_PATTERNS : List String :=
  ["config", "package.json", "tsconfig", "webpack", "vite", "next.config",
   "tailwind.config", "utils", "helpers", "constants", "types"]

/-- `SmartContextSelector._is_important_file`. -/
def isImportantFile (filename : String) : Bool :=
  IMPORTANT_PATTERNS.any (fun p => pyContains (pyLower filename) p)

/-- Factor 7 — important config/utility file, flat `+2.0`. -/
def importantScore (filename : String) : Int × List String :=
  if isImportantFile filename then (2, ["important config/utility"]) else (0, [])

/-- `SmartContextSelector._score_file`: the additive accumulation of the seven
independent factors, reasons appended in source order. -/
def scoreFile (f : FileInfo) (kws : List String) (taskType : String)
    (targets : List String) : Int × List String :=
  let filename := pyLower f.relative_path
  let content := f.content.getD ""
  ((targetScore filename targets).1 + (filenameScore filename kws).1 +
     (contentScore content kws).1 + (extensionScore f.extension taskType kws).1 +
     (pathSimScore filename taskType targets).1 + (sizeScore f.size).1 +
     (importantScore filename).1,
   (targetScore filename targets).2 ++ (filenameScore filename kws).2 ++
     (contentScore content kws).2 ++ (extensionScore f.extension taskType kws).2 ++
     (pathSimScore filename taskType targets).2 ++ (sizeScore f.size).2 ++
     (importantScore filename).2)

/-! ### `context_selector.py`: selection -/
/-- `RelevantFile` dataclass. -/
structure RelevantFile where
  file_info : FileInfo
  score : Int
  reasons : List String
deriving DecidableEq

/-- The scoring loop of `select_context` (lines 98-112): every catalogued code file,
keeping the ones with positive score, in catalog iteration order. -/
def scoredCandidates (files : List (String × FileInfo)) (kws : List String)
    (taskType : String) (targets : List String) : List RelevantFile :=
  files.filterMap (fun kv =>
    if kv.2.is_code then
      let sr := scoreFile kv.2 kws taskType targets
      if 0 < sr.1 then some ⟨kv.2, sr.1, sr.2⟩ else none
    else none)

/-- Stable descending insertion: the inserted element goes before the first element
of strictly smaller score and before equal scores (it originates earlier in the
input).  Produces the order of Python's stable `list.sort(reverse=True)` under the
`__lt__`-on-`score` comparison of `RelevantFile`. -/
def insertDesc (x : RelevantFile) : List RelevantFile → List RelevantFile
  | [] => [x]
  | y :: ys => if x.score < y.score then y :: insertDesc x ys else x :: y :: ys

def sortScoreDesc : List RelevantFile → List RelevantFile
  | [] => []
  | x :: xs => insertDesc x (sortScoreDesc xs)

/-- The per-file token estimate of `_select_within_budget`:
`(size // 4) if size else 0`. -/
def tokenEst (rf : RelevantFile) : Int :=
  if rf.file_info.size = 0 then 0 else ((rf.file_info.size : Int) / 4)

/-- `SmartContextSelector._select_within_budget`: prefix of the ranked list bounded
by `max_files` and the running token estimate, with the include-at-least-one-file
escape when the first file alone busts the budget. -/
def swbGo (maxFiles maxTokens : Int) : List RelevantFile → Nat → Int → List RelevantFile
  | [], _, _ => []
  | rf :: rest, count, total =>
    if (count : Int) ≥ maxFiles then []
    else
      let ft := tokenEst rf
      if total + ft > maxTokens then (if count = 0 then [rf] else [])
      else rf :: swbGo maxFiles maxTokens rest (count + 1) (total + ft)

def selectWithinBudget (scored : List RelevantFile) (maxFiles maxTokens : Int) :
    List RelevantFile :=
  swbGo maxFiles maxTokens scored 0 0

/-- `SmartContextSelector.select_context`.  `maxFiles`/`maxTokens` are the optional
arguments; `max_files or self.MAX_FILES` substitutes the class defaults for `None`
and for `0` (Python falsiness).  `targetFiles or []` likewise. -/
def selectContext (files : List (String × FileInfo)) (taskDescription : String)
    (targetFiles : Option (List String)) (maxFiles maxTokens : Option Int) :
    List RelevantFile :=
  let mf : Int := match maxFiles with | none => 10 | some v => if v = 0 then 10 else v
  let mt : Int := match maxTokens with | none => 8000 | some v => if v = 0 then 8000 else v
  let kws := extractKeywords taskDescription
  let tt := detectTaskType taskDescription
  let tgts := (targetFiles.getD [])
  selectWithinBudget (sortScoreDesc (scoredCandidates files kws tt tgts)) mf mt

/-! ### Concrete instances used by the claim theorems and their witnesses -/
def editC2 : Edit :=
  { file_path := "../repo2/x.txt", operation := "replace",
    old_content := some "a", new_content := some "b" }

def editC3 : Edit := { file_path := "a.txt", operation := "full_replace", new_content := some "v2" }

def fsC3 : FS := [("a.txt", "v1")]

def bpC3 : String := ".ai-dev-assistant-backups/a.txt.backup.20250101_000000"

def fsC3After : FS := [("a.txt", "v2"), (bpC3, "v1"), ("a.txt", "v1")]

def fiMainPy : FileInfo :=
  { path := "/repo/main.py", relative_path := "main.py", size := 20,
    extension := ".py", is_code := true, content := some "print(1)",
    content_hash := some "h0", lines := 1 }

def edC4 : Edit :=
  { file_path := "f.txt", operation := "replace",
    old_content := some "world", new_content := some "mars" }

def edC1 : Edit := { file_path := "a.txt", operation := "full_replace", new_content := some "x" }

def fmBackupBoom : FailModel :=
  { backupFail := fun p => if p = "a.txt" then some "PermissionError: denied" else none,
    readFail := fun _ => none, writeFail := fun _ => none }

def fiLoginJs : FileInfo :=
  { path := "/repo/src/login.js", relative_path := "src/login.js", size := 2000,
    extension := ".js", is_code := true, content := some "function login()", lines := 50 }

def fiUtilCss : FileInfo :=
  { path := "/repo/u.css", relative_path := "u.css", size := 50,
    extension := ".css", is_code := true }

def fiMainJs : FileInfo :=
  { path := "/repo/main.js", relative_path := "main.js", size := 100,
    extension := ".js", is_code := true }

def sumTokens (l : List RelevantFile) : Int := (l.map tokenEst).sum

/-! ### Key shapes produced by the scan walk -/
/-- Shape of a catalog key produced at the repository root: either a root-level
filename that survived `_should_ignore_file`, or a path whose first directory
component survived `_should_ignore_dir`. -/
inductive RootKeyShape (k : String) : Prop where
  | file (h : shouldIgnoreFile k = false) : RootKeyShape k
  | dir (d rest : String) (hd : shouldIgnoreDir d = false)
      (he : k = d ++ "/" ++ rest) : RootKeyShape k

/-- Walk invariant, indexed by the relative-path hole `pfx` of the walk. -/
def KeyOk (pfx k : String) : Prop :=
  if pfx = "" then RootKeyShape k else ∃ rest, k = pfx ++ "/" ++ rest

def fsTreeW : FsTree :=
  .node [("main.py", { size := 10, content := some "x" }),
         (".ai-dev-assistant-cache.json", { size := 5, content := some "z" })]
    (.fcons ".ai-dev-assistant-backups"
      (.node [("a.txt.backup.1", { size := 2, content := some "v" })] .fnil) .fnil)

/-! ## Theorems -/

theorem listSplitFirst_some (sub : List Char) :
    ∀ s p q, listSplitFirst sub s = some (p, q) → s = p ++ sub ++ q := by
  intro s
  induction s with
  | nil =>
    intro p q h
    by_cases hp : sub.isPrefixOf ([] : List Char)
    · have hs : sub = [] := by
        cases sub with
        | nil => rfl
        | cons a t => simp at hp
      subst hs
      simp [listSplitFirst] at h
      simp [h.1, h.2]
    · simp [listSplitFirst, hp] at h
  | cons c t ih =>
    intro p q h
    by_cases hp : sub.isPrefixOf (c :: t)
    · simp only [listSplitFirst, hp, if_pos, Option.some.injEq, Prod.mk.injEq] at h
      have hpre : sub <+: (c :: t) := (List.isPrefixOf_iff_prefix).1 hp
      obtain ⟨r, hr⟩ := hpre
      have hlen : (c :: t).drop sub.length = r := by
        rw [← hr]
        exact List.drop_left sub r
      rw [← h.1, ← h.2, hlen, ← hr]
      simp
    · simp only [listSplitFirst, hp, if_neg] at h
      cases hm : listSplitFirst sub t with
      | none => rw [hm] at h; simp at h
      | some pq =>
        rw [hm] at h
        simp at h
        obtain ⟨h1, h2⟩ := h
        rw [← h1, ← h2, ih pq.1 pq.2 (by rw [hm])]
        simp

/-- C2: refuted on the code (code bug).  The claim says every relative path that
escapes the repository root via traversal is rejected; but `validate_edit` checks
`str(full_path).startswith(str(self.repo_path))`, so with repository root `/repo`
the edit path `../repo2/x.txt` resolves to `/repo2/x.txt` — outside the root — and
still passes the whole validation (`(True, None)`), because `"/repo2/x.txt"` starts
with the string `"/repo"`. -/
theorem validateEdit_traversal_escape :
    validateEdit "/repo" editC2 = (true, none) ∧
    insideRoot "/repo" (resolveAbs ("/repo" ++ "/" ++ editC2.file_path)) = false := by
  constructor
  · rfl
  · rfl

/-- C3: refuted on the code (code bug).  `apply_edits` backs up `a.txt` (content
`v1`) before overwriting it with `v2`; `rollback` on that backup returns `True`, but
it writes the restored bytes to `.ai-dev-assistant-backups/a.txt` — because the
restore target is `backup.parent / original_name` and `backup.parent` is the backup
directory — and the original repository file `a.txt` keeps its post-edit content
`v2`, contradicting the claim that the backed-up original file is overwritten. -/
theorem rollback_restores_into_backup_dir :
    applyEdits true noFail "20250101_000000" [editC3] fsC3 =
      .ok ({ success := true, edits_applied := [{ editC3 with success := true }],
             edits_failed := [], backup_path := some bpC3 }, fsC3After) ∧
    rollback noFail fsC3After bpC3 =
      (true, (".ai-dev-assistant-backups/a.txt", "v1") :: fsC3After) ∧
    alookup (rollback noFail fsC3After bpC3).2 "a.txt" = some "v2" := by
  refine ⟨?_, ?_, ?_⟩
  · rfl
  · rfl
  · rfl

/-- C9: for every relative path that is not a key of the catalog, `get_file_content`
returns `None` without attempting any disk read, and the catalog is unchanged
(content memoisation only ever happens for catalogued paths). -/
theorem getFileContent_uncatalogued (files : List (String × FileInfo))
    (disk : String → Option String) (rel : String) (h : alookup files rel = none) :
    getFileContent files disk rel = (none, files, false) := by
  simp [getFileContent, h]

theorem getFileContent_uncatalogued_witness :
    getFileContent [("main.py", fiMainPy)] (fun _ => some "zz") "missing.py" =
      (none, [("main.py", fiMainPy)], false) :=
  getFileContent_uncatalogued [("main.py", fiMainPy)] (fun _ => some "zz") "missing.py" (by rfl)

theorem asNat_natCast (n : Nat) : asNat (some (.jint (n : Int))) = some n := by
  rw [asNat]
  rw [if_neg (by omega)]
  simp

theorem decodeFileInfo_encodeFileInfo (f : FileInfo) :
    decodeFileInfo (encodeFileInfo f) = some f := by
  cases f with
  | mk p rp sz ext ic c ch ln =>
    cases c <;> cases ch <;>
      simp [encodeFileInfo, decodeFileInfo, alookup, asStr, asNat_natCast, asBool, asOptStr]

theorem decodeFilesList_encode (fls : List (String × FileInfo)) :
    decodeFilesList (fls.map (fun kv => (kv.1, encodeFileInfo kv.2))) = some fls := by
  induction fls with
  | nil => rfl
  | cons kv rest ih => simp [decodeFilesList, decodeFileInfo_encodeFileInfo, ih]

theorem loadCache_saveCache (st : IndexerState) : loadCache (saveCache st) = some st := by
  cases st with
  | mk fls pt deps =>
    cases pt <;>
      simp [saveCache, loadCache, alookup, asOptStr, decodeFiles, decodeFilesList_encode]

/-- C6: confirmed.  A catalog (with project type and dependencies) persisted by the
version-tagged cache writer and reloaded by a fresh indexer with
`forceRefresh = false` is restored exactly, and the reload performs no filesystem
walk (the returned flag is `false`; `index` returns before the scan loop). -/
theorem cache_roundtrip_no_walk (st scanResult : IndexerState) :
    indexRun (some (saveCache st)) false scanResult = (st, false) := by
  simp [indexRun, loadCache_saveCache]

theorem alookup_cons_same_value (fs : FS) (q p c : String) (h : alookup fs p = some c) :
    alookup ((q, c) :: fs) p = some c := by
  by_cases hq : q = p <;> simp [alookup, hq, h]

theorem groupByFile_single (e : Edit) : groupByFile [e] = [(e.file_path, [e])] := rfl

/-- C4: confirmed.  For every file state and every single SearchReplace
(`'replace'`) edit: when the old content is not contained verbatim in the file's
current content (empty string for a missing file), `apply_edits` reports the edit
failed with the not-found error, applies nothing, and the target file's bytes are
unchanged; when it is contained, exactly the first occurrence is replaced
(`str.replace(old, new, 1)` semantics) and the edit succeeds. -/
theorem searchReplace_first_occurrence (fs : FS) (ts old nw : String) (e : Edit)
    (hop : e.operation = "replace") (ho : e.old_content = some old)
    (hn : e.new_content = some nw) :
    (pyContains ((alookup fs e.file_path).getD "") old = false →
      ∃ bp fs1, applyEdits true noFail ts [e] fs =
          .ok ({ success := false, edits_applied := [],
                 edits_failed := [markFailed "Old content not found in file" e],
                 backup_path := bp }, fs1) ∧
        alookup fs1 e.file_path = alookup fs e.file_path) ∧
    (pyContains ((alookup fs e.file_path).getD "") old = true →
      ∃ bp fs1, applyEdits true noFail ts [e] fs =
          .ok ({ success := true, edits_applied := [{ e with success := true }],
                 edits_failed := [], backup_path := bp }, fs1) ∧
        alookup fs1 e.file_path =
          some (pyReplaceFirst ((alookup fs e.file_path).getD "") old nw)) := by
  constructor
  · intro hc
    cases halo : alookup fs e.file_path with
    | none =>
      rw [halo] at hc
      simp only [Option.getD_none] at hc
      refine ⟨none, fs, ?_, halo⟩
      simp [applyEdits, groupByFile_single, runGroups, processOneFile, processBody,
            noFail, halo, editLoop, applyOne, hop, ho, hn, hc, markFailed]
    | some c0 =>
      rw [halo] at hc
      simp only [Option.getD_some] at hc
      refine ⟨some (backupPathOf e.file_path ts), (backupPathOf e.file_path ts, c0) :: fs, ?_, ?_⟩
      · simp [applyEdits, groupByFile_single, runGroups, processOneFile, processBody,
              noFail, halo, editLoop, applyOne, hop, ho, hn, hc, markFailed,
              alookup_cons_same_value fs (backupPathOf e.file_path ts) e.file_path c0 halo]
      · exact alookup_cons_same_value fs _ _ _ halo
  · intro hc
    cases halo : alookup fs e.file_path with
    | none =>
      rw [halo] at hc
      simp only [Option.getD_none] at hc
      refine ⟨none, (e.file_path, pyReplaceFirst "" old nw) :: fs, ?_, ?_⟩
      · simp [applyEdits, groupByFile_single, runGroups, processOneFile, processBody,
              noFail, halo, editLoop, applyOne, hop, ho, hn, hc]
      · simp [alookup]
    | some c0 =>
      rw [halo] at hc
      simp only [Option.getD_some] at hc
      refine ⟨some (backupPathOf e.file_path ts),
        (e.file_path, pyReplaceFirst c0 old nw) :: (backupPathOf e.file_path ts, c0) :: fs,
        ?_, ?_⟩
      · simp [applyEdits, groupByFile_single, runGroups, processOneFile, processBody,
              noFail, halo, editLoop, applyOne, hop, ho, hn, hc,
              alookup_cons_same_value fs (backupPathOf e.file_path ts) e.file_path c0 halo]
      · simp [alookup]

theorem searchReplace_first_occurrence_witness :
    ∃ bp fs1, applyEdits true noFail "20250101_000000" [edC4] [("f.txt", "hello world")] =
        .ok ({ success := true, edits_applied := [{ edC4 with success := true }],
               edits_failed := [], backup_path := bp }, fs1) ∧
      alookup fs1 edC4.file_path =
        some (pyReplaceFirst ((alookup [("f.txt", "hello world")] edC4.file_path).getD "")
          "world" "mars") :=
  (searchReplace_first_occurrence [("f.txt", "hello world")] "20250101_000000"
    "world" "mars" edC4 rfl rfl rfl).2 (by rfl)

/-- C1 counterexample: backup creation (lines 92-94 of `apply_edits`) is OUTSIDE the
`try:` block, so an I/O failure while creating the backup for an existing file is an
uncaught exception — `apply_edits` raises instead of returning an `EditOutcome`,
contradicting the claim that a failure "including backup creation" marks the group
failed and never aborts the call. -/
theorem applyEdits_raises_on_backup_failure :
    applyEdits true fmBackupBoom "20250101_000000" [edC1] [("a.txt", "v1")] =
      .error "PermissionError: denied" := rfl

theorem processOneFile_no_raise (cb : Bool) (fm : FailModel) (ts : String) (fs : FS)
    (p : String) (g : List Edit) (hnb : fm.backupFail p = none) :
    ∃ r, processOneFile cb fm ts fs p g = .ok r := by
  unfold processOneFile
  cases hif : (if cb then alookup fs p else none) with
  | none => exact ⟨_, rfl⟩
  | some c => rw [hnb]; exact ⟨_, rfl⟩

theorem runGroups_no_raise (cb : Bool) (fm : FailModel) (ts : String)
    (hnb : ∀ q, fm.backupFail q = none) :
    ∀ gs fs, ∃ r, runGroups cb fm ts gs fs = .ok r := by
  intro gs
  induction gs with
  | nil => intro fs; exact ⟨_, rfl⟩
  | cons pg rest ih =>
    intro fs
    obtain ⟨p, g⟩ := pg
    obtain ⟨r1, h1⟩ := processOneFile_no_raise cb fm ts fs p g (hnb p)
    obtain ⟨ap, fl, bp, fs1⟩ := r1
    obtain ⟨r2, h2⟩ := ih fs1
    obtain ⟨aps, fls, bps, fs2⟩ := r2
    cases bps with
    | none => exact ⟨(ap ++ aps, fl ++ fls, bp, fs2), by simp [runGroups, h1, h2]⟩
    | some b => exact ⟨(ap ++ aps, fl ++ fls, some b, fs2), by simp [runGroups, h1, h2]⟩

theorem processOneFile_read_failure (cb : Bool) (fm : FailModel) (ts : String)
    (fs : FS) (p : String) (g : List Edit) (msg : String)
    (hnb : fm.backupFail p = none) (hrf : fm.readFail p = some msg)
    (hex : (alookup fs p).isSome) :
    ∃ bp fs1, processOneFile cb fm ts fs p g =
        .ok ([], g.map (markFailed msg), bp, fs1) ∧
      alookup fs1 p = alookup fs p := by
  obtain ⟨c0, hc0⟩ := Option.isSome_iff_exists.1 hex
  cases cb with
  | false =>
    refine ⟨none, fs, ?_, rfl⟩
    simp [processOneFile, processBody, hc0, hrf]
  | true =>
    refine ⟨some (backupPathOf p ts), (backupPathOf p ts, c0) :: fs, ?_, ?_⟩
    · simp [processOneFile, processBody, hc0, hnb, hrf,
            alookup_cons_same_value fs (backupPathOf p ts) p c0 hc0]
    · rw [alookup_cons_same_value fs (backupPathOf p ts) p c0 hc0, hc0]

theorem editLoop_fullreplace_success :
    ∀ (g : List Edit) (mc : Option String), (∃ e ∈ g, e.operation = "full_replace") →
      (∃ msg ap fl, editLoop g mc = .raised msg ap fl) ∨
      (∃ up ap fl mcf, editLoop g mc = .done up ap fl mcf ∧
        up.any (fun x => x.success) = true) := by
  intro g
  induction g with
  | nil =>
    intro mc h
    obtain ⟨e, he, _⟩ := h
    simp at he
  | cons e rest ih =>
    intro mc h
    obtain ⟨e1, he1, hop1⟩ := h
    cases happ : applyOne e mc with
    | raise msg => exact Or.inl ⟨msg, [], [], by simp [editLoop, happ]⟩
    | ok e2 mc2 =>
      rcases List.mem_cons.1 he1 with heq | hmem
      · -- the head edit is the full_replace one: applyOne marks it successful
        subst heq
        have he2 : e2.success = true := by
          rw [applyOne.eq_def, if_pos hop1] at happ
          cases happ
          rfl
        cases hrest : editLoop rest mc2 with
        | done up ap fl mcf =>
          refine Or.inr ⟨e2 :: up, e2 :: ap, fl, mcf, ?_, ?_⟩
          · simp [editLoop, happ, hrest, he2]
          · simp [he2]
        | raised msg ap fl =>
          exact Or.inl ⟨msg, e2 :: ap, fl, by simp [editLoop, happ, hrest, he2]⟩
      · rcases ih mc2 ⟨e1, hmem, hop1⟩ with ⟨msg, ap, fl, hl⟩ | ⟨up, ap, fl, mcf, hl, hany⟩
        · exact Or.inl ⟨msg, (if e2.success = true then e2 :: ap else ap),
            (if e2.success = true then fl else e2 :: fl), by simp [editLoop, happ, hl]⟩
        · refine Or.inr ⟨e2 :: up, (if e2.success = true then e2 :: ap else ap),
            (if e2.success = true then fl else e2 :: fl), mcf, ?_, ?_⟩
          · simp [editLoop, happ, hl]
          · simp [hany]

theorem processBody_write_failure (fm : FailModel) (fs : FS) (p : String)
    (g : List Edit) (bp : Option String)
    (hnr : fm.readFail p = none) (hwf : (fm.writeFail p).isSome)
    (hfr : ∃ e ∈ g, e.operation = "full_replace") :
    ∃ msg pre ap, processBody fm fs p g bp =
        (ap, pre ++ g.map (markFailed msg), bp, fs) := by
  obtain ⟨wmsg, hwmsg⟩ := Option.isSome_iff_exists.1 hwf
  have hread : (match alookup fs p with
      | some c => (match fm.readFail p with | some m => Except.error m | none => Except.ok c)
      | none => Except.ok "") = (Except.ok ((alookup fs p).getD "") : Except String String) := by
    cases alookup fs p <;> simp [hnr]
  rcases editLoop_fullreplace_success g (some ((alookup fs p).getD "")) hfr with
    ⟨msg, ap, fl, hl⟩ | ⟨up, ap, fl, mcf, hl, hany⟩
  · exact ⟨msg, fl.map (markFailed msg), ap.map (markFailed msg),
      by rw [processBody, hread]; simp [hl]⟩
  · cases mcf with
    | none =>
      exact ⟨"TypeError: write argument must be str, not None",
        fl.map (markFailed "TypeError: write argument must be str, not None"),
        ap.map (markFailed "TypeError: write argument must be str, not None"),
        by rw [processBody, hread]; simp [hl, hany]⟩
    | some txt =>
      exact ⟨wmsg, fl.map (markFailed wmsg), ap.map (markFailed wmsg),
        by rw [processBody, hread]; simp [hl, hany, hwmsg]⟩

theorem processOneFile_write_failure (cb : Bool) (fm : FailModel) (ts : String)
    (fs : FS) (p : String) (g : List Edit)
    (hnb : fm.backupFail p = none) (hnr : fm.readFail p = none)
    (hwf : (fm.writeFail p).isSome) (hfr : ∃ e ∈ g, e.operation = "full_replace") :
    ∃ msg pre ap bp fs1, processOneFile cb fm ts fs p g =
        .ok (ap, pre ++ g.map (markFailed msg), bp, fs1) ∧
      alookup fs1 p = alookup fs p := by
  cases hif : (if cb then alookup fs p else none) with
  | none =>
    obtain ⟨msg, pre, ap, hb⟩ := processBody_write_failure fm fs p g none hnr hwf hfr
    exact ⟨msg, pre, ap, none, fs, by rw [processOneFile, hif, hb], rfl⟩
  | some c0 =>
    have hc0 : alookup fs p = some c0 := by
      cases cb with
      | true => simpa using hif
      | false => simp at hif
    obtain ⟨msg, pre, ap, hb⟩ := processBody_write_failure fm ((backupPathOf p ts, c0) :: fs)
      p g (some (backupPathOf p ts)) hnr hwf hfr
    refine ⟨msg, pre, ap, some (backupPathOf p ts), (backupPathOf p ts, c0) :: fs, ?_, ?_⟩
    · rw [processOneFile, hif, hnb]
      simp [hb]
    · rw [alookup_cons_same_value fs (backupPathOf p ts) p c0 hc0, hc0]

/-- C1, amended.  `apply_edits` catches I/O failures of the per-file `try:` block —
reading the current content and writing the modified content — marking every edit of
that file's group as failed with the underlying error while other files' groups
continue, and partial failure never aborts the call; but an I/O failure while
CREATING THE BACKUP for a file happens before the `try:` block and propagates out of
`apply_edits` (the claim's "including backup creation" is refuted by the
counterexample).  Stated as: (1) whenever backup creation does not fail, `apply_edits`
returns an `EditOutcome` for every batch; (2) a read failure on a file leaves the
per-file processor with an empty applied fragment and every edit of the group marked
failed with the error, the file untouched; (3) a write failure (for a group that
reaches the write, e.g. one containing a FullReplace edit) likewise marks every edit
of the group failed with the raised error, the file untouched. -/
theorem applyEdits_contains_read_write_failures (cb : Bool) (fm : FailModel)
    (ts : String) (edits : List Edit) (fs : FS)
    (hnb : ∀ q, fm.backupFail q = none) :
    (∃ r, applyEdits cb fm ts edits fs = .ok r) ∧
    (∀ p g fs1 msg, fm.readFail p = some msg → (alookup fs1 p).isSome →
      ∃ bp fs2, processOneFile cb fm ts fs1 p g =
          .ok ([], g.map (markFailed msg), bp, fs2) ∧
        alookup fs2 p = alookup fs1 p) ∧
    (∀ p g fs1, fm.readFail p = none → (fm.writeFail p).isSome →
      (∃ e ∈ g, e.operation = "full_replace") →
      ∃ msg pre ap bp fs2, processOneFile cb fm ts fs1 p g =
          .ok (ap, pre ++ g.map (markFailed msg), bp, fs2) ∧
        alookup fs2 p = alookup fs1 p) := by
  refine ⟨?_, ?_, ?_⟩
  · obtain ⟨r, hr⟩ := runGroups_no_raise cb fm ts hnb (groupByFile edits) fs
    obtain ⟨ap, fl, bp, fs1⟩ := r
    exact ⟨_, by rw [applyEdits, hr]⟩
  · intro p g fs1 msg hrf hex
    exact processOneFile_read_failure cb fm ts fs1 p g msg (hnb p) hrf hex
  · intro p g fs1 hnr hwf hfr
    exact processOneFile_write_failure cb fm ts fs1 p g (hnb p) hnr hwf hfr

theorem applyEdits_contains_read_write_failures_witness :
    ∃ r, applyEdits true noFail "20250101_000000" [edC1] [("a.txt", "v1")] = .ok r :=
  (applyEdits_contains_read_write_failures true noFail "20250101_000000" [edC1]
    [("a.txt", "v1")] (fun _ => rfl)).1

theorem targetScore_nonneg (fn : String) (ts : List String) : 0 ≤ (targetScore fn ts).1 := by
  rw [targetScore]
  split <;> norm_num [W_filename_exact]

theorem filenameScore_nonneg (fn : String) (kws : List String) :
    0 ≤ (filenameScore fn kws).1 := by
  unfold filenameScore
  cases kws.find? (fun k => pyContains fn k) <;> norm_num [W_filename_keyword]

theorem contentScore_nonneg (content : String) (kws : List String) :
    0 ≤ (contentScore content kws).1 := by
  simp only [contentScore]
  split_ifs <;> norm_num [W_content_high, W_content_medium, W_content_low]

theorem extensionScore_nonneg (ext tt : String) (kws : List String) :
    0 ≤ (extensionScore ext tt kws).1 := by
  rw [extensionScore]
  split <;> norm_num [W_extension_match]

theorem pathSimScore_bounds (fn tt : String) (ts : List String) :
    0 ≤ (pathSimScore fn tt ts).1 ∧ (pathSimScore fn tt ts).1 ≤ 2 := by
  unfold pathSimScore
  split_ifs <;> norm_num [W_path_similarity]

theorem sizeScore_nonneg (size : Nat) : 0 ≤ (sizeScore size).1 := by
  unfold sizeScore
  split_ifs <;> norm_num [W_small_file_bonus]

theorem importantScore_nonneg (fn : String) : 0 ≤ (importantScore fn).1 := by
  unfold importantScore
  split_ifs <;> norm_num

/-- C7: confirmed.  Scoring a file with a target list containing an explicit target
whose (lowercased) name is a substring of the file's lowercased path yields a
strictly greater score than scoring the same file — same keywords and task type —
with a target list containing no matching target: the explicit-mention factor
contributes its weight 10 exactly once, and the only other target-dependent factor
(path similarity) can differ by at most 2. -/
theorem score_target_match_monotonic (f : FileInfo) (kws : List String) (tt : String)
    (ts1 ts2 : List String)
    (h1 : ∃ t ∈ ts1, pyContains (pyLower f.relative_path) (pyLower t) = true)
    (h2 : ∀ t ∈ ts2, pyContains (pyLower f.relative_path) (pyLower t) = false) :
    (scoreFile f kws tt ts2).1 < (scoreFile f kws tt ts1).1 := by
  have e1 : (ts1.any fun t => pyContains (pyLower f.relative_path) (pyLower t)) = true :=
    List.any_eq_true.2 h1
  have e2 : (ts2.any fun t => pyContains (pyLower f.relative_path) (pyLower t)) = false := by
    rw [List.any_eq_false]
    intro t ht
    simp [h2 t ht]
  have hp1 := pathSimScore_bounds (pyLower f.relative_path) tt ts1
  have hp2 := pathSimScore_bounds (pyLower f.relative_path) tt ts2
  simp only [scoreFile, targetScore, e1, e2]
  norm_num [W_filename_exact]
  linarith

theorem score_target_match_monotonic_witness :
    (scoreFile fiLoginJs ["fix", "login", "bug"] "edit" []).1 <
      (scoreFile fiLoginJs ["fix", "login", "bug"] "edit" ["login.js"]).1 :=
  score_target_match_monotonic fiLoginJs ["fix", "login", "bug"] "edit"
    ["login.js"] [] (by decide) (by decide)

/-- C8 (implicit): confirmed.  Every code file smaller than 10,000 bytes scores at
least the small-file bonus 1.0 — every other factor is non-negative — hence its
score is positive for every task text, keyword list and target list, and such a file
always survives the score-must-be-positive discard step of `select_context`
(it appears among the scored candidates whenever it is in the catalog). -/
theorem small_code_file_always_scores (f : FileInfo) (kws : List String) (tt : String)
    (targets : List String) (hsz : f.size < 10000) :
    1 ≤ (scoreFile f kws tt targets).1 ∧
    (∀ files : List (String × FileInfo), (∃ p, (p, f) ∈ files) → f.is_code = true →
      ∃ rf ∈ scoredCandidates files kws tt targets, rf.file_info = f) := by
  have hsize : (sizeScore f.size).1 = 1 := by
    unfold sizeScore
    rw [if_pos hsz]
    norm_num [W_small_file_bonus]
  have hone : 1 ≤ (scoreFile f kws tt targets).1 := by
    have n1 := targetScore_nonneg (pyLower f.relative_path) targets
    have n2 := filenameScore_nonneg (pyLower f.relative_path) kws
    have n3 := contentScore_nonneg (f.content.getD "") kws
    have n4 := extensionScore_nonneg f.extension tt kws
    have n5 := (pathSimScore_bounds (pyLower f.relative_path) tt targets).1
    have n7 := importantScore_nonneg (pyLower f.relative_path)
    simp only [scoreFile, hsize]
    linarith
  refine ⟨hone, ?_⟩
  intro files hex hic
  obtain ⟨p, hp⟩ := hex
  have hpos : 0 < (scoreFile f kws tt targets).1 := lt_of_lt_of_le one_pos hone
  refine ⟨⟨f, (scoreFile f kws tt targets).1, (scoreFile f kws tt targets).2⟩, ?_, rfl⟩
  rw [scoredCandidates]
  exact List.mem_filterMap.2 ⟨(p, f), hp, by simp [hic, hpos]⟩

theorem small_code_file_always_scores_witness :
    1 ≤ (scoreFile fiUtilCss [] "general" []).1 :=
  (small_code_file_always_scores fiUtilCss [] "general" [] (by decide)).1

/-- C5 counterexample: `select_context` substitutes the class default
`MAX_FILES = 10` for a falsy `max_files` argument (`max_files or self.MAX_FILES`),
so with `maxFiles = 0` and one positively scoring file the selection has one entry —
more than `maxFiles` — refuting "never returns more than maxFiles entries" as
universally quantified over maxFiles. -/
theorem selectContext_ignores_zero_maxFiles :
    (selectContext [("main.js", fiMainJs)] "" none (some 0) (some 100000)).length = 1 ∧
    ¬ (((selectContext [("main.js", fiMainJs)] "" none (some 0) (some 100000)).length : Int) ≤ 0) := by
  have h : (selectContext [("main.js", fiMainJs)] "" none (some 0) (some 100000)).length = 1 := by decide
  refine ⟨h, ?_⟩
  rw [h]
  norm_num

theorem tokenEst_nonneg (rf : RelevantFile) : 0 ≤ tokenEst rf := by
  unfold tokenEst
  split_ifs with h
  · exact le_refl 0
  · exact Int.ediv_nonneg (Int.ofNat_nonneg _) (by norm_num)

theorem swbGo_length (mf mt : Int) :
    ∀ (l : List RelevantFile) (c : Nat) (t : Int),
      ((swbGo mf mt l c t).length : Int) ≤ max (mf - c) 0 := by
  intro l
  induction l with
  | nil => intro c t; simp [swbGo]
  | cons rf rest ih =>
    intro c t
    simp only [swbGo]
    split_ifs with hge hover hc0
    · simp
    · simp only [List.length_cons, List.length_nil]
      omega
    · simp
    · have := ih (c + 1) (t + tokenEst rf)
      simp only [List.length_cons]
      push_cast at this ⊢
      omega

theorem swbGo_tokens (mf mt : Int) :
    ∀ (l : List RelevantFile) (c : Nat) (t : Int), 0 ≤ t → t ≤ mt →
      (t + sumTokens (swbGo mf mt l c t) ≤ mt) ∨
      (c = 0 ∧ ∃ x, swbGo mf mt l c t = [x] ∧ mt < t + tokenEst x) := by
  intro l
  induction l with
  | nil => intro c t h0 hle; left; simpa [swbGo, sumTokens] using hle
  | cons rf rest ih =>
    intro c t h0 hle
    simp only [swbGo]
    split_ifs with hge hover hc0
    · left; simpa [sumTokens] using hle
    · right
      exact ⟨hc0, rf, rfl, by linarith⟩
    · left; simpa [sumTokens] using hle
    · have hft : 0 ≤ tokenEst rf := tokenEst_nonneg rf
      rcases ih (c + 1) (t + tokenEst rf) (by linarith) (by linarith) with hsum | ⟨habs, _⟩
      · left
        simp only [sumTokens, List.map_cons, List.sum_cons] at hsum ⊢
        linarith
      · exact absurd habs (Nat.succ_ne_zero c)

theorem swbGo_ne_nil (mf mt : Int) (hmf : 0 < mf) (l : List RelevantFile)
    (hl : l ≠ []) (t : Int) : swbGo mf mt l 0 t ≠ [] := by
  cases l with
  | nil => exact absurd rfl hl
  | cons rf rest =>
    simp only [swbGo]
    split_ifs with hge hover
    · exfalso; omega
    · simp
    · simp

theorem insertDesc_length (x : RelevantFile) (l : List RelevantFile) :
    (insertDesc x l).length = l.length + 1 := by
  induction l with
  | nil => rfl
  | cons y ys ih =>
    rw [insertDesc]
    split_ifs <;> simp [ih]

theorem sortScoreDesc_length (l : List RelevantFile) :
    (sortScoreDesc l).length = l.length := by
  induction l with
  | nil => rfl
  | cons x xs ih => simp [sortScoreDesc, insertDesc_length, ih]

/-- C5, amended.  For positive `maxFiles` and `maxTokenBudget` (the values the code
actually uses — `select_context` replaces a zero or omitted argument by the class
defaults 10 and 8000, so the claim fails as stated at `maxFiles = 0`, see the
counterexample): the selection has at most `maxFiles` entries; the summed token
estimate (`sizeBytes / 4`) of the selection is within the budget except when the
selection is a single over-budget first file; and a non-empty scored candidate list
never yields an empty selection. -/
theorem selectContext_budget (files : List (String × FileInfo)) (td : String)
    (tg : Option (List String)) (mf mt : Int) (hmf : 0 < mf) (hmt : 0 < mt) :
    ((selectContext files td tg (some mf) (some mt)).length : Int) ≤ mf ∧
    (sumTokens (selectContext files td tg (some mf) (some mt)) ≤ mt ∨
      ∃ x, selectContext files td tg (some mf) (some mt) = [x] ∧ mt < tokenEst x) ∧
    (scoredCandidates files (extractKeywords td) (detectTaskType td) (tg.getD []) ≠ [] →
      selectContext files td tg (some mf) (some mt) ≠ []) := by
  have hsel : selectContext files td tg (some mf) (some mt) =
      swbGo mf mt (sortScoreDesc (scoredCandidates files (extractKeywords td)
        (detectTaskType td) (tg.getD []))) 0 0 := by
    rw [selectContext]
    rw [if_neg (by omega), if_neg (by omega)]
    rfl
  rw [hsel]
  refine ⟨?_, ?_, ?_⟩
  · have := swbGo_length mf mt (sortScoreDesc (scoredCandidates files
      (extractKeywords td) (detectTaskType td) (tg.getD []))) 0 0
    omega
  · rcases swbGo_tokens mf mt (sortScoreDesc (scoredCandidates files
      (extractKeywords td) (detectTaskType td) (tg.getD []))) 0 0 (le_refl 0)
      (by omega) with hsum | ⟨_, x, hx, hover⟩
    · left; linarith
    · right; exact ⟨x, hx, by linarith⟩
  · intro hne
    apply swbGo_ne_nil mf mt hmf
    intro hempty
    apply hne
    have := sortScoreDesc_length (scoredCandidates files (extractKeywords td)
      (detectTaskType td) (tg.getD []))
    rw [hempty] at this
    simpa using (List.length_eq_zero.1 this.symm)

theorem selectContext_budget_witness :
    ((selectContext [("main.js", fiMainJs)] "" none (some 3) (some 8000)).length : Int) ≤ 3 :=
  (selectContext_budget [("main.js", fiMainJs)] "" none 3 8000 (by norm_num) (by norm_num)).1

theorem joinRel_ne_empty (pfx nm : String) (hpfx : pfx ≠ "") : joinRel pfx nm ≠ "" := by
  rw [joinRel, if_neg hpfx]
  intro hcontra
  have := congrArg String.data hcontra
  simp at this

mutual
theorem scanTree_keyOk (root : String) (h5 : String → String) :
    ∀ (t : FsTree) (pfx k : String) (fi : FileInfo),
      (k, fi) ∈ scanTree root h5 pfx t → KeyOk pfx k
  | .node fls ds => by
    intro pfx k fi hmem
    rw [scanTree] at hmem
    rcases List.mem_append.1 hmem with hf | hd
    · obtain ⟨fd, hfd, hsome⟩ := List.mem_filterMap.1 hf
      by_cases hig : shouldIgnoreFile fd.1
      · simp [hig] at hsome
      · have hig' : shouldIgnoreFile fd.1 = false := by simpa using hig
        rw [if_neg (by simp [hig'])] at hsome
        rcases Option.map_eq_some'.1 hsome with ⟨fi', _, heq⟩
        have hk : k = joinRel pfx fd.1 := by
          have := congrArg Prod.fst heq
          simpa using this.symm
        by_cases hpfx : pfx = ""
        · subst hpfx
          rw [KeyOk, if_pos rfl]
          rw [joinRel, if_pos rfl] at hk
          exact RootKeyShape.file (hk ▸ hig')
        · rw [KeyOk, if_neg hpfx]
          rw [joinRel, if_neg hpfx] at hk
          exact ⟨fd.1, hk⟩
    · exact scanForest_keyOk root h5 ds pfx k fi hd

theorem scanForest_keyOk (root : String) (h5 : String → String) :
    ∀ (fo : FsForest) (pfx k : String) (fi : FileInfo),
      (k, fi) ∈ scanForest root h5 pfx fo → KeyOk pfx k
  | .fnil => by
    intro pfx k fi h
    rw [scanForest] at h
    simp at h
  | .fcons nm t rest => by
    intro pfx k fi hmem
    rw [scanForest] at hmem
    rcases List.mem_append.1 hmem with hl | hr
    · by_cases hig : shouldIgnoreDir nm
      · simp [hig] at hl
      · have hig' : shouldIgnoreDir nm = false := by simpa using hig
        rw [if_neg (by simp [hig'])] at hl
        have hsub := scanTree_keyOk root h5 t (joinRel pfx nm) k fi hl
        by_cases hpfx : pfx = ""
        · subst hpfx
          by_cases hnm : nm = ""
          · subst hnm
            simpa [KeyOk, joinRel] using hsub
          · rw [KeyOk, if_pos rfl]
            rw [KeyOk, joinRel, if_pos rfl, if_neg hnm] at hsub
            obtain ⟨r, hr⟩ := hsub
            exact RootKeyShape.dir nm r hig' hr
        · have hne := joinRel_ne_empty pfx nm hpfx
          rw [KeyOk, if_neg hne] at hsub
          obtain ⟨r, hr⟩ := hsub
          rw [KeyOk, if_neg hpfx]
          refine ⟨nm ++ "/" ++ r, ?_⟩
          rw [hr, joinRel, if_neg hpfx]
          simp [String.append_assoc]
    · exact scanForest_keyOk root h5 rest pfx k fi hr
end

theorem pyStartsWith_trans (a b c : String) (h1 : pyStartsWith a b = true)
    (h2 : pyStartsWith b c = true) : pyStartsWith a c = true := by
  unfold pyStartsWith at *
  exact List.isPrefixOf_iff_prefix.2
    ((List.isPrefixOf_iff_prefix.1 h2).trans (List.isPrefixOf_iff_prefix.1 h1))

theorem shouldIgnoreFile_false_not_backup (k : String)
    (h : shouldIgnoreFile k = false) :
    pyStartsWith k ".ai-dev-assistant-backups/" = false := by
  by_contra hbp
  have hbp' : pyStartsWith k ".ai-dev-assistant-backups/" = true := by simpa using hbp
  have hdot : pyStartsWith k "." = true :=
    pyStartsWith_trans k ".ai-dev-assistant-backups/" "." hbp' (by decide)
  rw [shouldIgnoreFile] at h
  simp only [Bool.or_eq_false_iff, Bool.and_eq_false_iff, Bool.not_eq_false'] at h
  rcases h.1.2 with hdot' | hallow
  · rw [hdot] at hdot'
    exact Bool.true_eq_false ▸ hdot'
  · have hmem : k ∈ [".gitignore", ".dockerignore"] := by
      simpa using hallow
    rcases List.mem_cons.1 hmem with hk | hk2
    · rw [hk] at hbp'
      exact absurd hbp' (by decide)
    · have hk : k = ".dockerignore" := by simpa using hk2
      rw [hk] at hbp'
      exact absurd hbp' (by decide)

theorem string_append_slash_data (d rest : String) :
    (d ++ "/" ++ rest).data = d.data ++ '/' :: rest.data := by
  have h1 : (d ++ "/" ++ rest).data = d.data ++ ("/" : String).data ++ rest.data := by
    simp [String.data_append]
  rw [h1]
  simp

theorem dir_key_ne_cache (d rest : String) :
    d ++ "/" ++ rest ≠ ".ai-dev-assistant-cache.json" := by
  intro h
  have hmem : '/' ∈ (d ++ "/" ++ rest).data := by
    rw [string_append_slash_data]
    simp
  rw [h] at hmem
  exact absurd hmem (by decide)

theorem dir_key_not_backup (d rest : String) (hd : shouldIgnoreDir d = false) :
    pyStartsWith (d ++ "/" ++ rest) ".ai-dev-assistant-backups/" = false := by
  by_contra hbp
  have hbp' : pyStartsWith (d ++ "/" ++ rest) ".ai-dev-assistant-backups/" = true := by
    simpa using hbp
  have hnd : pyStartsWith d "." = false := by
    rw [shouldIgnoreDir] at hd
    simp only [Bool.or_eq_false_iff] at hd
    exact hd.2
  have hdot : pyStartsWith (d ++ "/" ++ rest) "." = true :=
    pyStartsWith_trans _ ".ai-dev-assistant-backups/" "." hbp' (by decide)
  rw [pyStartsWith] at hdot
  have hdotdata : ("." : String).data = ['.'] := rfl
  rw [hdotdata, string_append_slash_data] at hdot
  cases hdd : d.data with
  | nil =>
    rw [hdd] at hdot
    have hne : ('.' == '/') = false := by decide
    simp [List.isPrefixOf, hne] at hdot
  | cons c cs =>
    rw [hdd] at hdot
    simp only [List.cons_append, List.isPrefixOf, Bool.and_eq_true] at hdot
    have hc : c = '.' := (beq_iff_eq.1 hdot.1).symm
    have hds : pyStartsWith d "." = true := by
      rw [pyStartsWith, hdotdata, hdd, hc]
      simp [List.isPrefixOf]
    rw [hds] at hnd
    simp at hnd

/-- C10 (implicit): confirmed.  A filesystem scan never catalogs the indexer's own
cache file `.ai-dev-assistant-cache.json` (a dot-prefixed filename outside the
`.gitignore`/`.dockerignore` allow-list, so `_should_ignore_file` skips it) nor any
file under the edit engine's backup directory `.ai-dev-assistant-backups`
(a dot-prefixed directory, pruned by `_should_ignore_dir` before descent). -/
theorem scan_excludes_cache_and_backups (root : String) (md5hex : String → String)
    (t : FsTree) (k : String) (fi : FileInfo)
    (hmem : (k, fi) ∈ scanTree root md5hex "" t) :
    k ≠ ".ai-dev-assistant-cache.json" ∧
    pyStartsWith k ".ai-dev-assistant-backups/" = false := by
  have hshape : RootKeyShape k := by
    have h := scanTree_keyOk root md5hex t "" k fi hmem
    rw [KeyOk, if_pos rfl] at h
    exact h
  cases hshape with
  | file h =>
    refine ⟨?_, shouldIgnoreFile_false_not_backup k h⟩
    intro hk
    rw [hk] at h
    have : shouldIgnoreFile ".ai-dev-assistant-cache.json" = true := by decide
    rw [this] at h
    simp at h
  | dir d rest hd he =>
    subst he
    exact ⟨dir_key_ne_cache d rest, dir_key_not_backup d rest hd⟩

theorem scan_excludes_cache_and_backups_witness :
    "main.py" ≠ ".ai-dev-assistant-cache.json" ∧
    pyStartsWith "main.py" ".ai-dev-assistant-backups/" = false :=
  scan_excludes_cache_and_backups "/repo" (fun _ => "h") fsTreeW "main.py"
    { path := "/repo/main.py", relative_path := "main.py", size := 10,
      extension := ".py", is_code := true, content := some "x",
      content_hash := some "h", lines := 1 }
    (by
      simp [scanTree, scanForest, mkFileInfo, shouldIgnoreFile, shouldIgnoreDir,
        joinRel, fsTreeW]
      decide)
